import Mathlib

/-!
Verification of the Gomoku session server (`server.py`).

The board engine (`GomokuGame`) and the connection manager
(`ConnectionManager`) are shallowly embedded as pure Lean functions:
Python's in-place mutation becomes explicit state passing, each method
returning its result value paired with the successor state.  Rows,
columns, colors and the winner flag are `Int` (Python integers); the
board is a list of 15 rows of 15 cells (0 = empty, 1 = black,
2 = white).
-/

/-- Read `board[r][c]` with Python's bounds already checked by callers;
out-of-range reads default to 0 (callers always guard with `inBounds`). -/
def getCell (b : List (List Int)) (r c : Int) : Int :=
  (b.getD r.toNat []).getD c.toNat 0

/-- Write `board[r][c] = v` (a no-op out of range, which callers never hit). -/
def setCell (b : List (List Int)) (r c : Int) (v : Int) : List (List Int) :=
  b.set r.toNat ((b.getD r.toNat []).set c.toNat v)

/-- The bounds test `0 <= r < 15 and 0 <= c < 15`. -/
def inBounds (r c : Int) : Bool :=
  0 ≤ r && r < 15 && 0 ≤ c && c < 15

/-- The while-loop condition of `_check_win`: in bounds and holding
`color`. -/
def cellOk (b : List (List Int)) (color r c : Int) : Bool :=
  inBounds r c && getCell b r c == color

/-- Match state of `GomokuGame`: board, whose turn, winner flag
(0 in progress, 1 black, 2 white), move history, started flag. -/
structure GomokuGame where
  board : List (List Int)
  current_turn : Int
  winner : Int
  move_history : List (Int × Int × Int)
  game_started : Bool
deriving DecidableEq, Repr

/-- `GomokuGame.reset`: fresh 15x15 board, black to move, no winner,
empty history, not started. -/
def GomokuGame.reset : GomokuGame :=
  { board := List.replicate 15 (List.replicate 15 0)
    current_turn := 1
    winner := 0
    move_history := []
    game_started := false }

/-- The dictionary `place_stone` returns: success flag, winner field
(0 none, 1/2 win, -1 draw), message. -/
structure MoveResult where
  success : Bool
  winner : Int
  message : String
deriving DecidableEq, Repr

/-- One step of the while-loop in `_check_win`: walk from `(r, c)` in
direction `(dr, dc)` counting contiguous cells of `color`; `fuel`
bounds the walk (15 suffices on a 15-wide board: each step moves one
cell along the ray, so at most 15 in-bounds cells can be counted). -/
def countDir (b : List (List Int)) (color : Int) :
    Nat → Int → Int → Int → Int → Nat
  | 0, _, _, _, _ => 0
  | fuel + 1, r, c, dr, dc =>
    if cellOk b color r c then
      countDir b color fuel (r + dr) (c + dc) dr dc + 1
    else 0

/-- `GomokuGame._check_win`: from the just-placed cell scan the four axis
directions, counting contiguous same-color cells both ways (placed cell
included); any count >= 5 wins. -/
def check_win (b : List (List Int)) (row col color : Int) : Bool :=
  [((0 : Int), (1 : Int)), (1, 0), (1, 1), (1, -1)].any fun d =>
    decide (5 ≤ 1 + countDir b color 15 (row + d.1) (col + d.2) d.1 d.2
                  + countDir b color 15 (row - d.1) (col - d.2) (-d.1) (-d.2))

/-- `GomokuGame.place_stone`: turn check, game-over check, bounds check,
occupancy check; on success place the stone, append to history, then
report a win, a draw at 225 stones, or flip the turn. -/
def GomokuGame.place_stone (s : GomokuGame) (row col color : Int) :
    MoveResult × GomokuGame :=
  if color ≠ s.current_turn then
    ({ success := false, winner := 0, message := "还没轮到你" }, s)
  else if s.winner ≠ 0 then
    ({ success := false, winner := s.winner, message := "游戏已结束" }, s)
  else if !(inBounds row col) then
    ({ success := false, winner := 0, message := "位置超出棋盘" }, s)
  else if getCell s.board row col ≠ 0 then
    ({ success := false, winner := 0, message := "该位置已有棋子" }, s)
  else
    let board' := setCell s.board row col color
    let hist' := s.move_history ++ [(row, col, color)]
    if check_win board' row col color then
      ({ success := true, winner := color
         message := if color = 1 then "黑方获胜！" else "白方获胜！" },
       { s with board := board', move_history := hist', winner := color })
    else if 225 ≤ hist'.length then
      ({ success := true, winner := -1, message := "平局！" },
       { s with board := board', move_history := hist' })
    else
      ({ success := true, winner := 0, message := "" },
       { s with board := board', move_history := hist',
                current_turn := 3 - color })

/-- `GomokuGame.resign`: no-op returning False when a winner is already
set, otherwise award the win to the opposing color. -/
def GomokuGame.resign (s : GomokuGame) (color : Int) : Bool × GomokuGame :=
  if s.winner ≠ 0 then (false, s)
  else (true, { s with winner := 3 - color })

/-- `GomokuGame.timeout`: textually identical to `resign`. -/
def GomokuGame.timeout (s : GomokuGame) (color : Int) : Bool × GomokuGame :=
  if s.winner ≠ 0 then (false, s)
  else (true, { s with winner := 3 - color })

/-- `GomokuGame.undo`: False on empty history, otherwise pop the last
move, clear its cell, hand the turn back to the mover and clear the
winner flag. -/
def GomokuGame.undo (s : GomokuGame) : Bool × GomokuGame :=
  match s.move_history.getLast? with
  | none => (false, s)
  | some m =>
    (true,
     { s with board := setCell s.board m.1 m.2.1 0
              move_history := s.move_history.dropLast
              current_turn := m.2.2
              winner := 0 })

/-- Roles handed out by `ConnectionManager.connect`. -/
inductive Role
  | black
  | white
  | spectator
  | rejected
deriving DecidableEq, Repr

/-- Timeout reasons used by `_timer_loop` / `_handle_timeout`. -/
inductive TReason
  | turn
  | total
deriving DecidableEq, Repr

/-- Outcomes of `handle_pause`: a silent early return, an error message
sent only to the requester, or the pause being applied (which also
broadcasts an `admin_message`, cancels the main timer, starts the pause
countdown and broadcasts a timer sync). -/
inductive PauseOut
  | silent
  | errAlready
  | errNoCredits
  | applied
deriving DecidableEq, Repr

/-- `ConnectionManager` state.  The `players` dict (keys 1 and 2) is two
`Option` slots; connections are identified by naturals.  The username
and scoreboard registries, and the task handles, are omitted: no
operation verified below reads them except to format message text. -/
structure ConnectionManager where
  game : GomokuGame
  players1 : Option Nat := none
  players2 : Option Nat := none
  spectators : List Nat := []
  max_capacity : Int := 3
  turn_time_limit : Int := 20
  total_time_setting : Int := 300
  total_time1 : Int := 300
  total_time2 : Int := 300
  turn_remaining : Int := 0
  paused : Bool := false
  pause_by : Int := 0
  pause_remaining : Int := 0
  pause_counts1 : Int := 2
  pause_counts2 : Int := 2
  pause_duration : Int := 300
deriving DecidableEq, Repr

/-- `ConnectionManager._get_total_count`: players plus spectators. -/
def ConnectionManager.total_count (m : ConnectionManager) : Int :=
  (if m.players1.isSome then 1 else 0) + (if m.players2.isSome then 1 else 0)
    + m.spectators.length

/-- `ConnectionManager._get_color`: the player slot a connection holds. -/
def ConnectionManager.get_color (m : ConnectionManager) (ws : Nat) :
    Option Int :=
  if m.players1 = some ws then some 1
  else if m.players2 = some ws then some 2
  else none

/-- `self.pause_counts.get(color, 0)`. -/
def ConnectionManager.pauseCount (m : ConnectionManager) (color : Int) : Int :=
  if color = 1 then m.pause_counts1
  else if color = 2 then m.pause_counts2
  else 0

/-- `self.total_time[color]` (the dict has exactly the keys 1 and 2 and
the loop only indexes it with `game.current_turn`). -/
def ConnectionManager.totalTime (m : ConnectionManager) (color : Int) : Int :=
  if color = 1 then m.total_time1 else m.total_time2

def ConnectionManager.setTotalTime (m : ConnectionManager) (color v : Int) :
    ConnectionManager :=
  if color = 1 then { m with total_time1 := v } else { m with total_time2 := v }

def ConnectionManager.setPauseCount (m : ConnectionManager) (color v : Int) :
    ConnectionManager :=
  if color = 1 then { m with pause_counts1 := v }
  else { m with pause_counts2 := v }

/-- `ConnectionManager.connect` (under the lock): reject at capacity,
else fill the black slot, else the white slot, else append to the
spectators.  The returned `Bool` records whether `_notify_game_start`
broadcast a `game_start` event. -/
def ConnectionManager.connect (m : ConnectionManager) (ws : Nat) :
    Role × ConnectionManager × Bool :=
  if m.max_capacity ≤ m.total_count then
    (Role.rejected, m, false)
  else if m.players1 = none then
    (Role.black,
     { m with players1 := some ws
              game := { m.game with
                game_started := m.players2.isSome || m.game.game_started } },
     false)
  else if m.players2 = none then
    (Role.white,
     { m with players2 := some ws
              game := { m.game with game_started := true } },
     true)
  else
    (Role.spectator, { m with spectators := m.spectators ++ [ws] }, false)

/-- `ConnectionManager.reset_timers`. -/
def ConnectionManager.reset_timers (m : ConnectionManager) :
    ConnectionManager :=
  { m with total_time1 := m.total_time_setting
           total_time2 := m.total_time_setting
           turn_remaining := m.turn_time_limit
           paused := false
           pause_by := 0
           pause_remaining := 0
           pause_counts1 := 2
           pause_counts2 := 2 }

/-- `ConnectionManager.handle_pause`: silent return for spectators, an
unstarted game or a finished one; an error to the requester if already
paused or out of pause credits; otherwise deduct one credit, set the
pause fields, cancel the main timer and start the pause countdown. -/
def ConnectionManager.handle_pause (m : ConnectionManager) (ws : Nat) :
    ConnectionManager × PauseOut :=
  match m.get_color ws with
  | none => (m, PauseOut.silent)
  | some color =>
    if m.game.game_started = false ∨ m.game.winner ≠ 0 then
      (m, PauseOut.silent)
    else if m.paused then
      (m, PauseOut.errAlready)
    else if m.pauseCount color ≤ 0 then
      (m, PauseOut.errNoCredits)
    else
      ({ m.setPauseCount color (m.pauseCount color - 1) with
           paused := true
           pause_by := color
           pause_remaining := m.pause_duration },
       PauseOut.applied)

/-- The total-time half of the `_timer_loop` body: decrement the mover's
total time if enabled and fire a total timeout at zero (clamping to 0),
else just broadcast and continue. -/
def ConnectionManager.tickTotal (m : ConnectionManager) (color : Int) :
    ConnectionManager × Option (Int × TReason) :=
  if 0 < m.total_time_setting then
    let m1 := m.setTotalTime color (m.totalTime color - 1)
    if m1.totalTime color ≤ 0 then
      let m2 := m1.setTotalTime color 0
      ({ m2 with game := (m2.game.timeout color).2 }, some (color, TReason.total))
    else (m1, none)
  else (m, none)

/-- One iteration of the `while True` body of `_timer_loop` (after the
1-second sleep): decrement the turn clock if enabled and fire a turn
timeout at zero; otherwise fall through to the total-time half.  A
fired timeout also applies `game.timeout` as `_handle_timeout` does. -/
def ConnectionManager.tick (m : ConnectionManager) :
    ConnectionManager × Option (Int × TReason) :=
  let color := m.game.current_turn
  if 0 < m.turn_time_limit then
    let m1 := { m with turn_remaining := m.turn_remaining - 1 }
    if m1.turn_remaining ≤ 0 then
      ({ m1 with game := (m1.game.timeout color).2 }, some (color, TReason.turn))
    else m1.tickTotal color
  else m.tickTotal color

/-- Run the timer loop for up to `n` ticks, stopping when a timeout
fires (the loop `return`s there). -/
def ConnectionManager.runTicks (m : ConnectionManager) :
    Nat → ConnectionManager × Option (Int × TReason)
  | 0 => (m, none)
  | n + 1 =>
    match m.tick with
    | (m', none) => m'.runTicks n
    | (m', some e) => (m', some e)

/-- The `turn_remaining` field of every `timer_sync` payload:
the live countdown when a turn limit is set, `-1` otherwise. -/
def ConnectionManager.timerSyncTurnRemaining (m : ConnectionManager) : Int :=
  if 0 < m.turn_time_limit then m.turn_remaining else -1

/-- The specification's reading of the win condition: some axis
direction carries a window of 5 consecutive cells, all on the line
through the placed cell (which sits at offset `k` from the window's
start, `0 ≤ k ≤ 4`), every one in bounds and of the placed color.  Only
cells on the four lines through `(row, col)` are mentioned. -/
def winningLineThrough (b : List (List Int)) (row col color : Int) : Bool :=
  [((0 : Int), (1 : Int)), (1, 0), (1, 1), (1, -1)].any fun d =>
    (List.range 5).any fun k =>
      (List.range 5).all fun i =>
        cellOk b color (row + ((i : Int) - (k : Int)) * d.1)
                       (col + ((i : Int) - (k : Int)) * d.2)

/-- Number of occupied (non-empty) cells on the board. -/
def occupied (b : List (List Int)) : Nat :=
  (b.map fun row => row.countP fun x => x != 0).sum

/-- The board is a 15x15 grid. -/
def boardDims (b : List (List Int)) : Prop :=
  b.length = 15 ∧ ∀ row ∈ b, row.length = 15

/-- States reachable from a reset through the board operations. -/
inductive Reachable : GomokuGame → Prop
  | init : Reachable GomokuGame.reset
  | place (s : GomokuGame) (r c col : Int) :
      Reachable s → Reachable (s.place_stone r c col).2
  | undo (s : GomokuGame) :
      Reachable s → Reachable s.undo.2
  | resign (s : GomokuGame) (col : Int) :
      Reachable s → Reachable (s.resign col).2
  | timeout (s : GomokuGame) (col : Int) :
      Reachable s → Reachable (s.timeout col).2

/-- The inductive well-formedness carried through `Reachable`: board
dimensions, a 1-or-2 turn, every history entry naming an in-bounds cell
that still holds its (black or white) stone, pairwise-distinct history
positions, and the history length matching the occupied-cell count. -/
def WF (s : GomokuGame) : Prop :=
  boardDims s.board ∧
  (s.current_turn = 1 ∨ s.current_turn = 2) ∧
  (∀ mv ∈ s.move_history,
     inBounds mv.1 mv.2.1 = true ∧ getCell s.board mv.1 mv.2.1 = mv.2.2 ∧
       (mv.2.2 = 1 ∨ mv.2.2 = 2)) ∧
  s.move_history.Pairwise (fun a b => (a.1, a.2.1) ≠ (b.1, b.2.1)) ∧
  s.move_history.length = occupied s.board

/-- The full-board coloring used for the draw trace below: black iff
`(c + 2r) mod 4 < 2`.  Horizontal and anti-diagonal lines repeat with
period 4 (two blacks then two whites), vertical lines alternate, and
main-diagonal lines also repeat with runs of length two, so no line
contains five consecutive same-color cells; 113 cells are black and 112
white. -/
def cellColor (r c : Nat) : Int := if (c + 2 * r) % 4 < 2 then 1 else 2

def allCells : List (Nat × Nat) :=
  (List.range 15).flatMap fun r => (List.range 15).map fun c => (r, c)

def blackCells : List (Nat × Nat) :=
  allCells.filter fun p => cellColor p.1 p.2 == 1

def whiteCells : List (Nat × Nat) :=
  allCells.filter fun p => cellColor p.1 p.2 == 2

/-- 225 alternating moves (black the even ones) that fill the board with
`cellColor` and never create five in a row. -/
def drawMoves : List (Int × Int × Int) :=
  (List.range 225).map fun k =>
    let p := if k % 2 == 0 then blackCells.getD (k / 2) (0, 0)
             else whiteCells.getD (k / 2) (0, 0)
    ((p.1 : Int), (p.2 : Int), cellColor p.1 p.2)

/-- Fold a move list through `place_stone`, keeping the last result. -/
def playAllRes (s : GomokuGame) (ms : List (Int × Int × Int)) :
    MoveResult × GomokuGame :=
  ms.foldl (fun pr mv => pr.2.place_stone mv.1 mv.2.1 mv.2.2)
    ({ success := true, winner := 0, message := "" }, s)

/-- The board after all of `drawMoves`: every cell holds `cellColor`. -/
def fullBoard : List (List Int) :=
  (List.range 15).map fun r => (List.range 15).map fun c => cellColor r c

/-- The state reached after the 225 `drawMoves`: full board, turn still
black (the draw branch does not flip the turn), winner still 0. -/
def drawState : GomokuGame :=
  { board := fullBoard, current_turn := 1, winner := 0,
    move_history := drawMoves, game_started := false }

/-- Fold a move list through `place_stone`, requiring every call to
succeed without ending the game (success with a zero winner field). -/
def playND (s : GomokuGame) : List (Int × Int × Int) → Option GomokuGame
  | [] => some s
  | mv :: rest =>
    let pr := s.place_stone mv.1 mv.2.1 mv.2.2
    if pr.1.success && pr.1.winner == 0 then playND pr.2 rest else none

/-- Nine alternating moves ending in a black five-in-a-row on row 0. -/
def c2Moves : List (Int × Int × Int) :=
  [(0, 0, 1), (1, 0, 2), (0, 1, 1), (1, 1, 2), (0, 2, 1), (1, 2, 2),
   (0, 3, 1), (1, 3, 2), (0, 4, 1)]

/-- The state just after black's winning move. -/
def c2State : GomokuGame := (playAllRes GomokuGame.reset c2Moves).2

/-- Eight alternating moves leaving black with four in a row on row 7
and the game still open. -/
def c4Moves : List (Int × Int × Int) :=
  [(7, 3, 1), (0, 0, 2), (7, 4, 1), (0, 1, 2), (7, 5, 1), (0, 2, 2),
   (7, 6, 1), (0, 3, 2)]

def c4State : GomokuGame := (playAllRes GomokuGame.reset c4Moves).2

def c5Moves : List (Int × Int × Int) := [(7, 7, 1), (7, 8, 2)]

/-- A started match with no turn limit and a 300-second total budget:
the configuration of the C3 scenario. -/
def c3cm : ConnectionManager :=
  { game := { GomokuGame.reset with game_started := true }
    turn_time_limit := 0
    total_time_setting := 300
    total_time1 := 300
    total_time2 := 300
    turn_remaining := 0 }

/-- A started match with both the turn limit and the total budget
unlimited. -/
def c3cmZero : ConnectionManager :=
  { game := { GomokuGame.reset with game_started := true }
    turn_time_limit := 0
    total_time_setting := 0
    total_time1 := 0
    total_time2 := 0
    turn_remaining := 0 }

/-- An empty room with the default capacity. -/
def cmFresh : ConnectionManager := { game := GomokuGame.reset }

/-- A started two-player match with default pause credits. -/
def cmPause : ConnectionManager :=
  { game := { GomokuGame.reset with game_started := true }
    players1 := some 5
    players2 := some 6 }

theorem list_set_getD {α : Type} (l : List α) (n : Nat) (d : α) :
    l.set n (l.getD n d) = l := by
  induction l generalizing n with
  | nil => simp
  | cons a as ih =>
    cases n with
    | zero => simp
    | succ n =>
      simp only [List.set_cons_succ, List.getD_cons_succ]
      rw [ih]

theorem list_getD_set_eq {α : Type} (l : List α) (n : Nat) (v d : α)
    (h : n < l.length) : (l.set n v).getD n d = v := by
  induction l generalizing n with
  | nil => simp at h
  | cons a as ih =>
    cases n with
    | zero => simp
    | succ n => simpa using ih n (by simpa using h)

theorem list_getD_set_ne {α : Type} (l : List α) (m n : Nat) (v d : α)
    (h : m ≠ n) : (l.set m v).getD n d = l.getD n d := by
  induction l generalizing m n with
  | nil => simp
  | cons a as ih =>
    cases m with
    | zero =>
      cases n with
      | zero => exact absurd rfl h
      | succ n => simp
    | succ m =>
      cases n with
      | zero => simp
      | succ n => simpa using ih m n (fun hc => h (by simp [hc]))

/-- Re-clearing the cell a `setCell` just filled restores the board when
that cell was empty before. -/
theorem setCell_cancel (b : List (List Int)) (r c v : Int)
    (h : getCell b r c = 0) : setCell (setCell b r c v) r c 0 = b := by
  unfold setCell getCell at *
  by_cases hr : r.toNat < b.length
  · have hrow : (b.getD r.toNat []).set c.toNat 0 = b.getD r.toNat [] := by
      conv_lhs => rw [← h]
      exact list_set_getD _ _ _
    rw [list_getD_set_eq _ _ _ _ (by simpa using hr), List.set_set,
        List.set_set, hrow, list_set_getD]
  · rw [List.set_eq_of_length_le (Nat.le_of_not_lt hr),
        List.set_eq_of_length_le (Nat.le_of_not_lt hr)]

/-- Replacing row `i` shifts the occupied count by the difference of the
row counts. -/
theorem occupied_set_row (b : List (List Int)) :
    ∀ (i : Nat) (row : List Int), i < b.length →
      occupied (b.set i row) + (b.getD i []).countP (fun x => x != 0)
        = occupied b + row.countP (fun x => x != 0) := by
  induction b with
  | nil =>
    intro i row h
    simp at h
  | cons a as ih =>
    intro i row h
    cases i with
    | zero =>
      simp only [List.set_cons_succ, List.set_cons_zero, List.getD_cons_zero]
      simp only [occupied, List.map_cons, List.sum_cons]
      omega
    | succ i =>
      have := ih i row (by simpa using h)
      simp only [List.set_cons_succ, List.getD_cons_succ]
      simp only [occupied, List.map_cons, List.sum_cons] at this ⊢
      omega

theorem countP_nz_set_fill (l : List Int) (n : Nat) (v : Int)
    (h : n < l.length) (h0 : l.getD n 0 = 0) (hv : v ≠ 0) :
    (l.set n v).countP (fun x => x != 0)
      = l.countP (fun x => x != 0) + 1 := by
  rw [List.countP_set _ _ _ _ h]
  have hl : l[n] = (0 : Int) := by
    rw [List.getD_eq_getElem?_getD, List.getElem?_eq_getElem h] at h0
    simpa using h0
  simp [hl, hv]

theorem countP_nz_set_clear (l : List Int) (n : Nat)
    (h : n < l.length) (h0 : l.getD n 0 ≠ 0) :
    (l.set n 0).countP (fun x => x != 0) + 1
      = l.countP (fun x => x != 0) := by
  rw [List.countP_set _ _ _ _ h]
  have hl : l[n] ≠ (0 : Int) := by
    rw [List.getD_eq_getElem?_getD, List.getElem?_eq_getElem h] at h0
    simpa using h0
  have hpos : 0 < l.countP (fun x => x != 0) :=
    List.countP_pos.mpr ⟨l[n], List.getElem_mem h, by simpa using hl⟩
  simp only [hl, bne_self_eq_false]
  simp [hl]
  omega

/-- Filling an empty in-bounds cell adds one occupied cell. -/
theorem occupied_setCell_fill (b : List (List Int)) (r c v : Int)
    (hdims : boardDims b) (hb : inBounds r c = true)
    (h0 : getCell b r c = 0) (hv : v ≠ 0) :
    occupied (setCell b r c v) = occupied b + 1 := by
  obtain ⟨hlen, hrows⟩ := hdims
  have hbnd : 0 ≤ r ∧ r < 15 ∧ 0 ≤ c ∧ c < 15 := by
    unfold inBounds at hb
    simp only [Bool.and_eq_true, decide_eq_true_eq] at hb
    exact ⟨hb.1.1.1, hb.1.1.2, hb.1.2, hb.2⟩
  have hr : r.toNat < b.length := by
    rw [hlen]
    omega
  have hrowmem : b.getD r.toNat [] ∈ b := by
    rw [List.getD_eq_getElem?_getD, List.getElem?_eq_getElem hr]
    exact Option.getD_some ▸ List.getElem_mem hr
  have hc : c.toNat < (b.getD r.toNat []).length := by
    rw [hrows _ hrowmem]
    omega
  have hrow := countP_nz_set_fill (b.getD r.toNat []) c.toNat v hc h0 hv
  have := occupied_set_row b r.toNat ((b.getD r.toNat []).set c.toNat v) hr
  unfold setCell
  omega

/-- Clearing an occupied in-bounds cell removes one occupied cell. -/
theorem occupied_setCell_clear (b : List (List Int)) (r c : Int)
    (hdims : boardDims b) (hb : inBounds r c = true)
    (h0 : getCell b r c ≠ 0) :
    occupied (setCell b r c 0) + 1 = occupied b := by
  obtain ⟨hlen, hrows⟩ := hdims
  have hbnd : 0 ≤ r ∧ r < 15 ∧ 0 ≤ c ∧ c < 15 := by
    unfold inBounds at hb
    simp only [Bool.and_eq_true, decide_eq_true_eq] at hb
    exact ⟨hb.1.1.1, hb.1.1.2, hb.1.2, hb.2⟩
  have hr : r.toNat < b.length := by
    rw [hlen]
    omega
  have hrowmem : b.getD r.toNat [] ∈ b := by
    rw [List.getD_eq_getElem?_getD, List.getElem?_eq_getElem hr]
    exact Option.getD_some ▸ List.getElem_mem hr
  have hc : c.toNat < (b.getD r.toNat []).length := by
    rw [hrows _ hrowmem]
    omega
  have hrow := countP_nz_set_clear (b.getD r.toNat []) c.toNat hc h0
  have := occupied_set_row b r.toNat ((b.getD r.toNat []).set c.toNat 0) hr
  unfold setCell
  omega

/-- Writes do not affect other in-bounds cells. -/
theorem getCell_setCell_ne (b : List (List Int)) (r c r' c' v : Int)
    (hb : inBounds r c = true) (hb' : inBounds r' c' = true)
    (hne : (r, c) ≠ (r', c')) :
    getCell (setCell b r c v) r' c' = getCell b r' c' := by
  have hbnd : 0 ≤ r ∧ r < 15 ∧ 0 ≤ c ∧ c < 15 := by
    unfold inBounds at hb
    simp only [Bool.and_eq_true, decide_eq_true_eq] at hb
    exact ⟨hb.1.1.1, hb.1.1.2, hb.1.2, hb.2⟩
  have hbnd' : 0 ≤ r' ∧ r' < 15 ∧ 0 ≤ c' ∧ c' < 15 := by
    unfold inBounds at hb'
    simp only [Bool.and_eq_true, decide_eq_true_eq] at hb'
    exact ⟨hb'.1.1.1, hb'.1.1.2, hb'.1.2, hb'.2⟩
  unfold getCell setCell
  by_cases hrr : r.toNat = r'.toNat
  · have hreq : r = r' := by omega
    subst hreq
    have hcc : c ≠ c' := by
      intro hc
      exact hne (by rw [hc])
    have hjj : c.toNat ≠ c'.toNat := by omega
    by_cases hlen : r.toNat < b.length
    · rw [list_getD_set_eq _ _ _ _ hlen, list_getD_set_ne _ _ _ _ _ hjj]
    · rw [List.set_eq_of_length_le (Nat.le_of_not_lt hlen)]
  · rw [list_getD_set_ne _ _ _ _ _ hrr]

/-- `setCell` at an in-bounds position preserves the 15x15 shape. -/
theorem boardDims_setCell (b : List (List Int)) (r c v : Int)
    (hdims : boardDims b) (hb : inBounds r c = true) :
    boardDims (setCell b r c v) := by
  obtain ⟨hlen, hrows⟩ := hdims
  have hbnd : 0 ≤ r ∧ r < 15 ∧ 0 ≤ c ∧ c < 15 := by
    unfold inBounds at hb
    simp only [Bool.and_eq_true, decide_eq_true_eq] at hb
    exact ⟨hb.1.1.1, hb.1.1.2, hb.1.2, hb.2⟩
  have hr : r.toNat < b.length := by
    rw [hlen]
    omega
  have hrowmem : b.getD r.toNat [] ∈ b := by
    rw [List.getD_eq_getElem?_getD, List.getElem?_eq_getElem hr]
    exact Option.getD_some ▸ List.getElem_mem hr
  refine ⟨by simpa [setCell] using hlen, fun row hrow => ?_⟩
  rcases List.mem_or_eq_of_mem_set hrow with h | h
  · exact hrows _ h
  · rw [h, List.length_set]
    exact hrows _ hrowmem

/-- C2 counterexample: after black's winning move the winner field is 1,
yet `undo` resets it to 0 — the result flag does not survive `undo`. -/
theorem undo_clears_winner_cex :
    c2State.winner = 1 ∧ c2State.undo.1 = true ∧ c2State.undo.2.winner = 0 := by
  decide

/-- Unfolding `undo` on a non-empty history. -/
theorem undo_step (s : GomokuGame) (r c col : Int)
    (h : s.move_history.getLast? = some (r, c, col)) :
    s.undo = (true,
      { s with board := setCell s.board r c 0
               move_history := s.move_history.dropLast
               current_turn := col
               winner := 0 }) := by
  simp [GomokuGame.undo, h]

/-- C2 (amended): `undo` on a non-empty history pops the last entry,
clears that cell, returns the turn to the mover, and also resets the
winner field to 0, so callers need not clear the terminal result
themselves. -/
theorem undo_pops_and_clears_winner (s : GomokuGame) (r c col : Int)
    (h : s.move_history.getLast? = some (r, c, col)) :
    s.undo = (true,
      { s with board := setCell s.board r c 0
               move_history := s.move_history.dropLast
               current_turn := col
               winner := 0 }) :=
  undo_step s r c col h

theorem undo_pops_and_clears_winner_witness :
    c2State.undo = (true,
      { c2State with board := setCell c2State.board 0 4 0
                     move_history := c2State.move_history.dropLast
                     current_turn := 1
                     winner := 0 }) :=
  undo_pops_and_clears_winner c2State 0 4 1 (by decide)

/-- Anatomy of a successful `place_stone`: all four guards passed, the
stone was placed and logged, and the call ended in exactly one of the
win, draw or turn-flip branches. -/
theorem place_stone_cases (s : GomokuGame) (r c col : Int)
    (res : MoveResult) (s' : GomokuGame)
    (hp : s.place_stone r c col = (res, s')) (hs : res.success = true) :
    col = s.current_turn ∧ s.winner = 0 ∧ inBounds r c = true ∧
    getCell s.board r c = 0 ∧
    s'.board = setCell s.board r c col ∧
    s'.move_history = s.move_history ++ [(r, c, col)] ∧
    s'.game_started = s.game_started ∧
    ((check_win (setCell s.board r c col) r c col = true ∧
        res.winner = col ∧ s'.winner = col ∧
        s'.current_turn = s.current_turn) ∨
     (check_win (setCell s.board r c col) r c col = false ∧
        225 ≤ (s.move_history ++ [(r, c, col)]).length ∧
        res.winner = -1 ∧ s'.winner = 0 ∧
        s'.current_turn = s.current_turn) ∨
     (check_win (setCell s.board r c col) r c col = false ∧
        (s.move_history ++ [(r, c, col)]).length < 225 ∧
        res.winner = 0 ∧ s'.winner = 0 ∧
        s'.current_turn = 3 - col)) := by
  simp only [GomokuGame.place_stone] at hp
  by_cases h1 : col ≠ s.current_turn
  · rw [if_pos h1] at hp
    injection hp with hres _
    subst hres
    simp at hs
  rw [if_neg h1] at hp
  by_cases h2 : s.winner ≠ 0
  · rw [if_pos h2] at hp
    injection hp with hres _
    subst hres
    simp at hs
  rw [if_neg h2] at hp
  by_cases h3 : (!inBounds r c) = true
  · rw [if_pos h3] at hp
    injection hp with hres _
    subst hres
    simp at hs
  rw [if_neg h3] at hp
  by_cases h4 : getCell s.board r c ≠ 0
  · rw [if_pos h4] at hp
    injection hp with hres _
    subst hres
    simp at hs
  rw [if_neg h4] at hp
  by_cases h5 : check_win (setCell s.board r c col) r c col = true
  · rw [if_pos h5] at hp
    injection hp with hres hst
    subst hres
    subst hst
    exact ⟨not_ne_iff.mp h1, not_ne_iff.mp h2, by simpa using h3,
      not_ne_iff.mp h4, rfl, rfl, rfl, Or.inl ⟨h5, rfl, rfl, rfl⟩⟩
  rw [if_neg h5] at hp
  by_cases h6 : 225 ≤ (s.move_history ++ [(r, c, col)]).length
  · rw [if_pos h6] at hp
    injection hp with hres hst
    subst hres
    subst hst
    exact ⟨not_ne_iff.mp h1, not_ne_iff.mp h2, by simpa using h3,
      not_ne_iff.mp h4, rfl, rfl, rfl,
      Or.inr (Or.inl ⟨by simpa using h5, h6, rfl, not_ne_iff.mp h2, rfl⟩)⟩
  rw [if_neg h6] at hp
  injection hp with hres hst
  subst hres
  subst hst
  exact ⟨not_ne_iff.mp h1, not_ne_iff.mp h2, by simpa using h3,
    not_ne_iff.mp h4, rfl, rfl, rfl,
    Or.inr (Or.inr ⟨by simpa using h5, Nat.lt_of_not_le h6, rfl,
      not_ne_iff.mp h2, rfl⟩)⟩

/-- One successful, non-ending move flips the turn and keeps it in
{1, 2}. -/
theorem playND_turn (ms : List (Int × Int × Int)) : ∀ s s' : GomokuGame,
    (s.current_turn = 1 ∨ s.current_turn = 2) → playND s ms = some s' →
    s'.current_turn =
      if ms.length % 2 = 0 then s.current_turn else 3 - s.current_turn := by
  induction ms with
  | nil =>
    intro s s' _ h
    simp only [playND, Option.some.injEq] at h
    subst h
    simp
  | cons mv rest ih =>
    intro s s' hturn h
    simp only [playND] at h
    by_cases hc : ((s.place_stone mv.1 mv.2.1 mv.2.2).1.success &&
        ((s.place_stone mv.1 mv.2.1 mv.2.2).1.winner == 0)) = true
    · rw [if_pos hc] at h
      simp only [Bool.and_eq_true, beq_iff_eq] at hc
      obtain ⟨hcol, _, _, _, _, _, _, hdisj⟩ :=
        place_stone_cases s mv.1 mv.2.1 mv.2.2
          (s.place_stone mv.1 mv.2.1 mv.2.2).1
          (s.place_stone mv.1 mv.2.1 mv.2.2).2 rfl hc.1
      have hflip : (s.place_stone mv.1 mv.2.1 mv.2.2).2.current_turn
          = 3 - s.current_turn := by
        rcases hdisj with ⟨_, hw, _, _⟩ | ⟨_, _, hw, _, _⟩ | ⟨_, _, _, _, ht⟩
        · rw [hw, hcol] at hc
          rcases hturn with h' | h' <;> rw [h'] at hc <;> simp at hc
        · rw [hw] at hc
          simp at hc
        · rw [ht, hcol]
      have hmem : ((s.place_stone mv.1 mv.2.1 mv.2.2).2.current_turn = 1 ∨
          (s.place_stone mv.1 mv.2.1 mv.2.2).2.current_turn = 2) := by
        rw [hflip]
        rcases hturn with h' | h' <;> rw [h'] <;> norm_num
      have := ih _ s' hmem h
      rw [this, hflip]
      rcases Nat.even_or_odd rest.length with he | ho
      · have h1 : rest.length % 2 = 0 := Nat.even_iff.mp he
        have h2 : (mv :: rest).length % 2 ≠ 0 := by
          simp [List.length_cons, Nat.succ_mod_two_eq_one_iff, h1]
        rw [if_pos h1, if_neg h2]
      · have h1 : rest.length % 2 ≠ 0 := by
          simpa [Nat.odd_iff] using ho
        have h2 : (mv :: rest).length % 2 = 0 := by
          simp only [List.length_cons, Nat.succ_mod_two_eq_zero_iff]
          omega
        rw [if_neg h1, if_pos h2]
        rcases hturn with h' | h' <;> rw [h'] <;> norm_num
    · rw [if_neg hc] at h
      exact absurd h (by simp)

/-- C5: starting from a reset, after `N` successful non-ending moves the
turn is black for even `N` and white for odd `N`. -/
theorem turn_alternation (ms : List (Int × Int × Int)) (s' : GomokuGame)
    (h : playND GomokuGame.reset ms = some s') :
    s'.current_turn = if ms.length % 2 = 0 then 1 else 2 := by
  have hres := playND_turn ms GomokuGame.reset s' (Or.inl rfl) h
  rw [hres]
  by_cases hp : ms.length % 2 = 0 <;> simp [hp, GomokuGame.reset]

theorem turn_alternation_witness :
    ((playND GomokuGame.reset c5Moves).getD GomokuGame.reset).current_turn
      = if c5Moves.length % 2 = 0 then 1 else 2 :=
  turn_alternation c5Moves _ (by decide)

/-- C7: `resign` and `timeout` are the same state transition — the same
boolean and the same successor state: a no-op on a finished game,
otherwise the opposing color wins. -/
theorem resign_timeout_same_transition (s : GomokuGame) (color : Int) :
    s.resign color = s.timeout color ∧
    s.resign color = (if s.winner = 0
      then (true, { s with winner := 3 - color }) else (false, s)) := by
  refine ⟨rfl, ?_⟩
  by_cases h : s.winner = 0 <;> simp [GomokuGame.resign, h]

/-- C6: a successful `place_stone` followed by `undo` restores the board
and the turn; and on any state, `undo` fails (returning the state
unchanged) exactly when the history is empty. -/
theorem place_undo_left_inverse (s : GomokuGame) (r c col : Int)
    (res : MoveResult) (s' t : GomokuGame)
    (hp : s.place_stone r c col = (res, s')) (hs : res.success = true) :
    (s'.undo.1 = true ∧ s'.undo.2.board = s.board ∧
      s'.undo.2.current_turn = s.current_turn) ∧
    ((t.undo.1 = false ↔ t.move_history = []) ∧
      (t.move_history = [] → t.undo = (false, t))) := by
  obtain ⟨hcol, _, _, hcell, hboard, hhist, _, _⟩ :=
    place_stone_cases s r c col res s' hp hs
  have hlast : s'.move_history.getLast? = some (r, c, col) := by
    rw [hhist]
    exact List.getLast?_concat _
  have hundo := undo_step s' r c col hlast
  refine ⟨⟨by rw [hundo], ?_, ?_⟩, ?_, ?_⟩
  · rw [hundo]
    show setCell s'.board r c 0 = s.board
    rw [hboard]
    exact setCell_cancel s.board r c col hcell
  · rw [hundo]
    show col = s.current_turn
    exact hcol
  · rcases h : t.move_history.getLast? with _ | mv
    · have hnil : t.move_history = [] := List.getLast?_eq_none_iff.mp h
      simp [GomokuGame.undo, h, hnil]
    · have hne : t.move_history ≠ [] := by
        intro hnil
        rw [hnil] at h
        simp at h
      simp [GomokuGame.undo, h, hne]
  · intro hnil
    have h : t.move_history.getLast? = none := by rw [hnil]; rfl
    simp [GomokuGame.undo, h]

theorem place_undo_left_inverse_witness :
    ((GomokuGame.reset.place_stone 7 7 1).2.undo.1 = true ∧
      (GomokuGame.reset.place_stone 7 7 1).2.undo.2.board
        = GomokuGame.reset.board ∧
      (GomokuGame.reset.place_stone 7 7 1).2.undo.2.current_turn
        = GomokuGame.reset.current_turn) ∧
    ((GomokuGame.reset.undo.1 = false ↔
        GomokuGame.reset.move_history = []) ∧
      (GomokuGame.reset.move_history = [] →
        GomokuGame.reset.undo = (false, GomokuGame.reset))) :=
  place_undo_left_inverse GomokuGame.reset 7 7 1
    (GomokuGame.reset.place_stone 7 7 1).1
    (GomokuGame.reset.place_stone 7 7 1).2 GomokuGame.reset rfl (by decide)

/-- C8: `connect` rejects (leaving every roster unchanged) exactly at
capacity; below capacity it fills the black slot first, then the white
slot (marking the game started and broadcasting `game_start`), and
otherwise appends the connection to the spectators. -/
theorem connect_admission (m : ConnectionManager) (ws : Nat) :
    (m.max_capacity ≤ m.total_count →
      m.connect ws = (Role.rejected, m, false)) ∧
    (¬ m.max_capacity ≤ m.total_count → m.players1 = none →
      m.connect ws = (Role.black,
        { m with players1 := some ws
                 game := { m.game with game_started :=
                   m.players2.isSome || m.game.game_started } }, false)) ∧
    (¬ m.max_capacity ≤ m.total_count → m.players1 ≠ none →
      m.players2 = none →
      m.connect ws = (Role.white,
        { m with players2 := some ws
                 game := { m.game with game_started := true } }, true)) ∧
    (¬ m.max_capacity ≤ m.total_count → m.players1 ≠ none →
      m.players2 ≠ none →
      m.connect ws = (Role.spectator,
        { m with spectators := m.spectators ++ [ws] }, false)) := by
  refine ⟨fun h => ?_, fun h h1 => ?_, fun h h1 h2 => ?_, fun h h1 h2 => ?_⟩
  · simp [ConnectionManager.connect, h]
  · simp [ConnectionManager.connect, h, h1]
  · simp [ConnectionManager.connect, h, h1, h2]
  · simp [ConnectionManager.connect, h, h1, h2]

/-- C10: a pause request is applied exactly when the requester is a
player, the game is started and unfinished, no pause is active and the
requester has a positive credit; it then deducts exactly one credit and
sets the pause fields, every failing case leaves the state untouched
(with at most an error to the requester), and credits never go
negative. -/
theorem pause_request_atomic (m : ConnectionManager) (ws : Nat)
    (color : Int) :
    ((m.handle_pause ws).2 ≠ PauseOut.applied → (m.handle_pause ws).1 = m) ∧
    (m.get_color ws = none → m.handle_pause ws = (m, PauseOut.silent)) ∧
    (m.get_color ws = some color →
      ((m.handle_pause ws).2 = PauseOut.applied ↔
        m.game.game_started = true ∧ m.game.winner = 0 ∧
          m.paused = false ∧ 0 < m.pauseCount color)) ∧
    (m.get_color ws = some color → m.game.game_started = true →
      m.game.winner = 0 → m.paused = false → 0 < m.pauseCount color →
      m.handle_pause ws =
        ({ m.setPauseCount color (m.pauseCount color - 1) with
             paused := true
             pause_by := color
             pause_remaining := m.pause_duration }, PauseOut.applied)) ∧
    (0 ≤ m.pause_counts1 → 0 ≤ m.pause_counts2 →
      0 ≤ (m.handle_pause ws).1.pause_counts1 ∧
        0 ≤ (m.handle_pause ws).1.pause_counts2) := by
  rcases hcol : m.get_color ws with _ | c
  · refine ⟨fun _ => ?_, fun _ => ?_, fun hsome => ?_, fun hsome => ?_,
      fun ha hb => ?_⟩
    · simp [ConnectionManager.handle_pause, hcol]
    · simp [ConnectionManager.handle_pause, hcol]
    · exact absurd hsome (by simp)
    · exact absurd hsome (by simp)
    · simp only [ConnectionManager.handle_pause, hcol]
      exact ⟨ha, hb⟩
  · have hout : m.handle_pause ws =
        (if m.game.game_started = false ∨ m.game.winner ≠ 0 then
          (m, PauseOut.silent)
        else if m.paused then (m, PauseOut.errAlready)
        else if m.pauseCount c ≤ 0 then (m, PauseOut.errNoCredits)
        else
          ({ m.setPauseCount c (m.pauseCount c - 1) with
               paused := true
               pause_by := c
               pause_remaining := m.pause_duration },
           PauseOut.applied)) := by
      simp [ConnectionManager.handle_pause, hcol]
    by_cases hg : m.game.game_started = false ∨ m.game.winner ≠ 0
    · rw [if_pos hg] at hout
      refine ⟨fun _ => by rw [hout], fun hn => ?_, fun hsome => ?_,
        fun hsome h1 h2 => ?_, fun ha hb => ?_⟩
      · exact absurd hn (by simp)
      · rw [hout]
        simp only
        constructor
        · intro habs
          exact absurd habs (by simp)
        · rintro ⟨h1, h2, _, _⟩
          rcases hg with hg | hg
          · rw [h1] at hg
            exact absurd hg (by simp)
          · exact absurd h2 hg
      · rcases hg with hg | hg
        · rw [h1] at hg
          exact absurd hg (by simp)
        · exact absurd h2 hg
      · rw [hout]
        exact ⟨ha, hb⟩
    · rw [if_neg hg] at hout
      obtain ⟨hga, hgb⟩ := not_or.mp hg
      have hg' : m.game.game_started = true ∧ m.game.winner = 0 :=
        ⟨by simpa using hga, not_ne_iff.mp hgb⟩
      by_cases hpau : m.paused
      · rw [if_pos hpau] at hout
        refine ⟨fun _ => by rw [hout], fun hn => ?_, fun hsome => ?_,
          fun hsome h1 h2 h3 => ?_, fun ha hb => ?_⟩
        · exact absurd hn (by simp)
        · rw [hout]
          simp only
          constructor
          · intro habs
            exact absurd habs (by simp)
          · rintro ⟨_, _, h3, _⟩
            rw [h3] at hpau
            exact absurd hpau (by simp)
        · rw [h3] at hpau
          exact absurd hpau (by simp)
        · rw [hout]
          exact ⟨ha, hb⟩
      · rw [if_neg hpau] at hout
        by_cases hcred : m.pauseCount c ≤ 0
        · rw [if_pos hcred] at hout
          refine ⟨fun _ => by rw [hout], fun hn => ?_, fun hsome => ?_,
            fun hsome h1 h2 h3 h4 => ?_, fun ha hb => ?_⟩
          · exact absurd hn (by simp)
          · rw [hout]
            simp only
            constructor
            · intro habs
              exact absurd habs (by simp)
            · rintro ⟨_, _, _, h4⟩
              injection hsome with hsome
              rw [← hsome] at h4
              omega
          · injection hsome with hsome
            rw [← hsome] at h4
            omega
          · rw [hout]
            exact ⟨ha, hb⟩
        · rw [if_neg hcred] at hout
          refine ⟨fun hna => ?_, fun hn => ?_, fun hsome => ?_,
            fun hsome h1 h2 h3 h4 => ?_, fun ha hb => ?_⟩
          · rw [hout] at hna
            exact absurd rfl hna
          · exact absurd hn (by simp)
          · injection hsome with hsome
            subst hsome
            rw [hout]
            exact ⟨fun _ => ⟨hg'.1, hg'.2, Bool.eq_false_iff.mpr hpau,
              by omega⟩, fun _ => rfl⟩
          · injection hsome with hsome
            subst hsome
            rw [hout]
          · rw [hout]
            simp only [ConnectionManager.setPauseCount]
            by_cases hc1 : c = 1
            · simp only [if_pos hc1]
              constructor
              · have : 0 < m.pauseCount c := by omega
                rw [ConnectionManager.pauseCount, if_pos hc1] at this
                omega
              · exact hb
            · simp only [if_neg hc1]
              refine ⟨ha, ?_⟩
              have : 0 < m.pauseCount c := by omega
              by_cases hc2 : c = 2
              · rw [ConnectionManager.pauseCount, if_neg hc1, if_pos hc2]
                  at this
                omega
              · rw [ConnectionManager.pauseCount, if_neg hc1, if_neg hc2]
                  at this
                omega

/-- Reading back the just-written cell on a well-dimensioned board. -/
theorem getCell_setCell_same (b : List (List Int)) (r c v : Int)
    (hdims : boardDims b) (hb : inBounds r c = true) :
    getCell (setCell b r c v) r c = v := by
  obtain ⟨hlen, hrows⟩ := hdims
  have hbnd : 0 ≤ r ∧ r < 15 ∧ 0 ≤ c ∧ c < 15 := by
    unfold inBounds at hb
    simp only [Bool.and_eq_true, decide_eq_true_eq] at hb
    exact ⟨hb.1.1.1, hb.1.1.2, hb.1.2, hb.2⟩
  have hr : r.toNat < b.length := by
    rw [hlen]
    omega
  have hrowmem : b.getD r.toNat [] ∈ b := by
    rw [List.getD_eq_getElem?_getD, List.getElem?_eq_getElem hr]
    exact Option.getD_some ▸ List.getElem_mem hr
  have hc : c.toNat < (b.getD r.toNat []).length := by
    rw [hrows _ hrowmem]
    omega
  unfold getCell setCell
  rw [list_getD_set_eq _ _ _ _ hr, list_getD_set_eq _ _ _ _ hc]

/-- A failing `place_stone` leaves the state unchanged. -/
theorem place_stone_fail (s : GomokuGame) (r c col : Int)
    (h : (s.place_stone r c col).1.success = false) :
    (s.place_stone r c col).2 = s := by
  simp only [GomokuGame.place_stone] at h ⊢
  split_ifs at h ⊢ <;> first | rfl | simp at h

theorem wf_reset : WF GomokuGame.reset := by
  unfold WF
  refine ⟨⟨by decide, ?_⟩, Or.inl rfl, by simp [GomokuGame.reset],
    List.Pairwise.nil, by decide⟩
  intro row hrow
  have : row = List.replicate 15 (0 : Int) := List.eq_of_mem_replicate hrow
  rw [this]
  exact List.length_replicate _ _

theorem wf_place (s : GomokuGame) (r c col : Int) (h : WF s) :
    WF (s.place_stone r c col).2 := by
  by_cases hsucc : (s.place_stone r c col).1.success = true
  case neg =>
    rw [place_stone_fail s r c col
      (by revert hsucc; cases (s.place_stone r c col).1.success <;> simp)]
    exact h
  case pos =>
    obtain ⟨hturn, hw0, hb, hcell, hboard, hhist, _, hdisj⟩ :=
      place_stone_cases s r c col (s.place_stone r c col).1
        (s.place_stone r c col).2 rfl hsucc
    obtain ⟨hdims, h12, hentries, hpw, hlen⟩ := h
    have hcol12 : col = 1 ∨ col = 2 := by
      rw [hturn]
      exact h12
    have hcolnz : col ≠ 0 := by
      rcases hcol12 with h' | h' <;> rw [h'] <;> omega
    unfold WF
    refine ⟨?_, ?_, ?_, ?_, ?_⟩
    · rw [hboard]
      exact boardDims_setCell _ _ _ _ hdims hb
    · rcases hdisj with ⟨_, _, _, ht⟩ | ⟨_, _, _, _, ht⟩ | ⟨_, _, _, _, ht⟩
      · rw [ht]
        exact h12
      · rw [ht]
        exact h12
      · rw [ht]
        omega
    · intro mv hmv
      rw [hhist] at hmv
      rcases List.mem_append.mp hmv with hold | hnew
      · obtain ⟨hib, hgc, hc12⟩ := hentries mv hold
        refine ⟨hib, ?_, hc12⟩
        rw [hboard]
        have hposne : (r, c) ≠ (mv.1, mv.2.1) := by
          intro he
          injection he with he1 he2
          rw [← he1, ← he2] at hgc
          rw [hcell] at hgc
          rcases hc12 with h' | h' <;> omega
        rw [getCell_setCell_ne s.board r c mv.1 mv.2.1 col hb hib hposne]
        exact hgc
      · have hmveq : mv = (r, c, col) := by simpa using hnew
        subst hmveq
        refine ⟨hb, ?_, hcol12⟩
        rw [hboard]
        exact getCell_setCell_same s.board r c col hdims hb
    · rw [hhist, List.pairwise_append]
      refine ⟨hpw, List.pairwise_singleton _ _, ?_⟩
      intro a ha b hb'
      have hbeq : b = (r, c, col) := by simpa using hb'
      subst hbeq
      obtain ⟨_, hgc, hc12⟩ := hentries a ha
      intro he
      injection he with he1 he2
      rw [he1, he2] at hgc
      rw [hcell] at hgc
      rcases hc12 with h' | h' <;> omega
    · rw [hhist, hboard, List.length_append,
        occupied_setCell_fill s.board r c col hdims hb hcell hcolnz]
      simp [hlen]

theorem wf_undo (s : GomokuGame) (h : WF s) : WF s.undo.2 := by
  rcases hl : s.move_history.getLast? with _ | m
  · simp only [GomokuGame.undo, hl]
    exact h
  · rcases m with ⟨mr, mc, mcol⟩
    have hne : s.move_history ≠ [] := by
      intro hnil
      rw [hnil] at hl
      simp at hl
    have hdecomp : s.move_history.dropLast ++ [(mr, mc, mcol)]
        = s.move_history := by
      have h1 := List.dropLast_append_getLast hne
      have h2 := List.getLast?_eq_getLast s.move_history hne
      rw [hl] at h2
      injection h2 with h2
      rw [← h2] at h1
      exact h1
    obtain ⟨hdims, h12, hentries, hpw, hlen⟩ := h
    have hmem : (mr, mc, mcol) ∈ s.move_history := by
      rw [← hdecomp]
      exact List.mem_append_right _ (by simp)
    obtain ⟨hib0, hgc0, hc120⟩ := hentries _ hmem
    have hib : inBounds mr mc = true := hib0
    have hgc : getCell s.board mr mc = mcol := hgc0
    have hc12 : mcol = 1 ∨ mcol = 2 := hc120
    have hundo := undo_step s mr mc mcol hl
    rw [hundo]
    have hcross : ∀ a ∈ s.move_history.dropLast, (a.1, a.2.1) ≠ (mr, mc) := by
      rw [← hdecomp] at hpw
      have hp := List.pairwise_append.mp hpw
      intro a ha
      exact hp.2.2 a ha (mr, mc, mcol) (by simp)
    unfold WF
    refine ⟨?_, hc12, ?_, ?_, ?_⟩
    · exact boardDims_setCell _ _ _ _ hdims hib
    · intro mv hmv
      have hmv' : mv ∈ s.move_history :=
        List.Sublist.mem hmv (List.dropLast_sublist _)
      obtain ⟨hib', hgc', hc12'⟩ := hentries mv hmv'
      refine ⟨hib', ?_, hc12'⟩
      have hne' : (mr, mc) ≠ (mv.1, mv.2.1) := Ne.symm (hcross mv hmv)
      rw [getCell_setCell_ne s.board mr mc mv.1 mv.2.1 0 hib hib' hne']
      exact hgc'
    · exact List.Pairwise.sublist (List.dropLast_sublist _) hpw
    · have hocc := occupied_setCell_clear s.board mr mc hdims hib
        (by rw [hgc]; rcases hc12 with h' | h' <;> omega)
      have hpos : 1 ≤ s.move_history.length := by
        rcases hlist : s.move_history with _ | _
        · exact absurd hlist hne
        · simp [hlist]
      show s.move_history.dropLast.length = occupied (setCell s.board mr mc 0)
      rw [List.length_dropLast]
      omega

theorem wf_resign (s : GomokuGame) (col : Int) (h : WF s) :
    WF (s.resign col).2 := by
  unfold GomokuGame.resign
  split_ifs <;> exact h

theorem wf_timeout (s : GomokuGame) (col : Int) (h : WF s) :
    WF (s.timeout col).2 := by
  unfold GomokuGame.timeout
  split_ifs <;> exact h

theorem reachable_wf (s : GomokuGame) (h : Reachable s) : WF s := by
  induction h with
  | init => exact wf_reset
  | place s r c col _ ih => exact wf_place s r c col ih
  | undo s _ ih => exact wf_undo s ih
  | resign s col _ ih => exact wf_resign s col ih
  | timeout s col _ ih => exact wf_timeout s col ih

/-- C9: on every reachable state the move log is exactly as long as the
number of occupied cells — an invariant of reset, `place_stone`, `undo`
(and of `resign` / `timeout`, which do not touch the board). -/
theorem move_log_matches_occupied (s : GomokuGame) (h : Reachable s) :
    s.move_history.length = occupied s.board :=
  (reachable_wf s h).2.2.2.2

theorem move_log_matches_occupied_witness :
    ((GomokuGame.reset.place_stone 7 7 1).2.move_history.length
      = occupied (GomokuGame.reset.place_stone 7 7 1).2.board) :=
  move_log_matches_occupied (GomokuGame.reset.place_stone 7 7 1).2
    (Reachable.place GomokuGame.reset 7 7 1 Reachable.init)

/-- Cells counted by the `_check_win` walk are same-color and in
bounds: position `j` of the walk from `(r, c)` along `(dr, dc)`. -/
theorem countDir_sound (b : List (List Int)) (color dr dc : Int) :
    ∀ (fuel : Nat) (r c : Int) (j : Nat),
      j < countDir b color fuel r c dr dc →
      cellOk b color (r + (j : Int) * dr) (c + (j : Int) * dc) = true := by
  intro fuel
  induction fuel with
  | zero =>
    intro r c j hj
    simp [countDir] at hj
  | succ fuel ih =>
    intro r c j hj
    rw [countDir] at hj
    by_cases hok : cellOk b color r c = true
    · rw [if_pos hok] at hj
      cases j with
      | zero => simpa using hok
      | succ j =>
        have hrec := ih (r + dr) (c + dc) j (by omega)
        have e1 : r + dr + (j : Int) * dr = r + ((j + 1 : Nat) : Int) * dr := by
          push_cast
          ring
        have e2 : c + dc + (j : Int) * dc = c + ((j + 1 : Nat) : Int) * dc := by
          push_cast
          ring
        rw [e1, e2] at hrec
        exact hrec
    · rw [if_neg hok] at hj
      omega

/-- Conversely, a prefix of same-color in-bounds cells along the ray is
fully counted by the walk, given enough fuel. -/
theorem countDir_complete (b : List (List Int)) (color dr dc : Int) :
    ∀ (fuel : Nat) (r c : Int) (msz : Nat), msz ≤ fuel →
      (∀ j : Nat, j < msz →
        cellOk b color (r + (j : Int) * dr) (c + (j : Int) * dc) = true) →
      msz ≤ countDir b color fuel r c dr dc := by
  intro fuel
  induction fuel with
  | zero =>
    intro r c msz hm _
    simpa [countDir] using hm
  | succ fuel ih =>
    intro r c msz hm hcells
    cases msz with
    | zero => exact Nat.zero_le _
    | succ k =>
      have h0 : cellOk b color r c = true := by
        simpa using hcells 0 (by omega)
      rw [countDir, if_pos h0]
      have hrec : k ≤ countDir b color fuel (r + dr) (c + dc) dr dc := by
        apply ih (r + dr) (c + dc) k (by omega)
        intro j hj
        have hc := hcells (j + 1) (by omega)
        have e1 : r + ((j + 1 : Nat) : Int) * dr = r + dr + (j : Int) * dr := by
          push_cast
          ring
        have e2 : c + ((j + 1 : Nat) : Int) * dc = c + dc + (j : Int) * dc := by
          push_cast
          ring
        rw [e1, e2] at hc
        exact hc
      omega

/-- Per direction: the two-sided count through an occupied center
reaches 5 exactly when a window of 5 consecutive same-color cells on
that line contains the center. -/
theorem run_iff_window (b : List (List Int)) (color row col dr dc : Int)
    (h0 : cellOk b color row col = true) :
    (5 ≤ 1 + countDir b color 15 (row + dr) (col + dc) dr dc
           + countDir b color 15 (row - dr) (col - dc) (-dr) (-dc)) ↔
    (∃ k : Nat, k < 5 ∧ ∀ i : Nat, i < 5 →
       cellOk b color (row + ((i : Int) - (k : Int)) * dr)
         (col + ((i : Int) - (k : Int)) * dc) = true) := by
  constructor
  · intro h
    have hall : ∀ o : Int,
        -(countDir b color 15 (row - dr) (col - dc) (-dr) (-dc) : Int) ≤ o →
        o ≤ (countDir b color 15 (row + dr) (col + dc) dr dc : Int) →
        cellOk b color (row + o * dr) (col + o * dc) = true := by
      intro o ho1 ho2
      rcases lt_trichotomy o 0 with hneg | hzero | hpos
      · have hj : (-o - 1).toNat <
            countDir b color 15 (row - dr) (col - dc) (-dr) (-dc) := by
          omega
        have hs := countDir_sound b color (-dr) (-dc) 15 (row - dr) (col - dc)
          (-o - 1).toNat hj
        have htn : (((-o - 1).toNat : Nat) : Int) = -o - 1 :=
          Int.toNat_of_nonneg (by omega)
        have e1 : row - dr + (((-o - 1).toNat : Nat) : Int) * (-dr)
            = row + o * dr := by
          rw [htn]
          ring
        have e2 : col - dc + (((-o - 1).toNat : Nat) : Int) * (-dc)
            = col + o * dc := by
          rw [htn]
          ring
        rw [e1, e2] at hs
        exact hs
      · subst hzero
        simpa using h0
      · have hj : (o - 1).toNat <
            countDir b color 15 (row + dr) (col + dc) dr dc := by
          omega
        have hs := countDir_sound b color dr dc 15 (row + dr) (col + dc)
          (o - 1).toNat hj
        have htn : (((o - 1).toNat : Nat) : Int) = o - 1 :=
          Int.toNat_of_nonneg (by omega)
        have e1 : row + dr + (((o - 1).toNat : Nat) : Int) * dr
            = row + o * dr := by
          rw [htn]
          ring
        have e2 : col + dc + (((o - 1).toNat : Nat) : Int) * dc
            = col + o * dc := by
          rw [htn]
          ring
        rw [e1, e2] at hs
        exact hs
    refine ⟨min (countDir b color 15 (row - dr) (col - dc) (-dr) (-dc)) 4,
      by omega, fun i hi => ?_⟩
    apply hall <;> push_cast <;> omega
  · rintro ⟨k, hk, hwin⟩
    have hf : 4 - k ≤ countDir b color 15 (row + dr) (col + dc) dr dc := by
      apply countDir_complete b color dr dc 15 (row + dr) (col + dc) (4 - k)
        (by omega)
      intro j hj
      have hc := hwin (k + 1 + j) (by omega)
      have e1 : row + (((k + 1 + j : Nat) : Int) - (k : Int)) * dr
          = row + dr + (j : Int) * dr := by
        push_cast
        ring
      have e2 : col + (((k + 1 + j : Nat) : Int) - (k : Int)) * dc
          = col + dc + (j : Int) * dc := by
        push_cast
        ring
      rw [e1, e2] at hc
      exact hc
    have hg : k ≤ countDir b color 15 (row - dr) (col - dc) (-dr) (-dc) := by
      apply countDir_complete b color (-dr) (-dc) 15 (row - dr) (col - dc) k
        (by omega)
      intro j hj
      have hc := hwin (k - 1 - j) (by omega)
      have ecast : (((k - 1 - j : Nat) : Nat) : Int) - (k : Int)
          = -(j : Int) - 1 := by
        omega
      have e1 : row + ((((k - 1 - j : Nat) : Nat) : Int) - (k : Int)) * dr
          = row - dr + (j : Int) * (-dr) := by
        rw [ecast]
        ring
      have e2 : col + ((((k - 1 - j : Nat) : Nat) : Int) - (k : Int)) * dc
          = col - dc + (j : Int) * (-dc) := by
        rw [ecast]
        ring
      rw [e1, e2] at hc
      exact hc
    omega

theorem any_four_dirs (p : Int × Int → Bool) :
    ([((0 : Int), (1 : Int)), (1, 0), (1, 1), (1, -1)].any p = true) ↔
    (p (0, 1) = true ∨ p (1, 0) = true ∨ p (1, 1) = true ∨
      p (1, -1) = true) := by
  simp [List.any_cons]

/-- `_check_win` agrees with the specification's windowed reading on any
board whose probed center cell is in bounds and already colored. -/
theorem check_win_iff_window (b : List (List Int)) (row col color : Int)
    (h0 : cellOk b color row col = true) :
    check_win b row col color = winningLineThrough b row col color := by
  rw [Bool.eq_iff_iff]
  unfold check_win winningLineThrough
  rw [any_four_dirs, any_four_dirs]
  have hdir : ∀ dr dc : Int,
      (decide (5 ≤ 1 + countDir b color 15 (row + dr) (col + dc) dr dc
         + countDir b color 15 (row - dr) (col - dc) (-dr) (-dc)) = true) ↔
      (((List.range 5).any fun k => (List.range 5).all fun i =>
        cellOk b color (row + ((i : Int) - (k : Int)) * dr)
          (col + ((i : Int) - (k : Int)) * dc)) = true) := by
    intro dr dc
    rw [decide_eq_true_eq, run_iff_window b color row col dr dc h0]
    simp [List.any_eq_true, List.all_eq_true, List.mem_range]
  exact or_congr (hdir 0 1) (or_congr (hdir 1 0)
    (or_congr (hdir 1 1) (hdir 1 (-1))))

/-- C4: a successful `place_stone` reports a win for `color` exactly
when the just-updated board carries, through the placed cell, a window
of five contiguous cells of that color along one of the four axis
directions — a check confined to the four lines through the cell. -/
theorem place_stone_win_iff (s : GomokuGame) (row col color : Int)
    (res : MoveResult) (s' : GomokuGame)
    (hp : s.place_stone row col color = (res, s'))
    (hsucc : res.success = true)
    (hcol : color = 1 ∨ color = 2)
    (hdims : boardDims s.board) :
    (res.winner = color ↔ winningLineThrough s'.board row col color = true) := by
  obtain ⟨hturn, hw0, hb, hcell, hboard, hhist, _, hdisj⟩ :=
    place_stone_cases s row col color res s' hp hsucc
  have h0 : cellOk s'.board color row col = true := by
    unfold cellOk
    rw [hboard, hb, getCell_setCell_same s.board row col color hdims hb]
    simp
  have hcw := check_win_iff_window s'.board row col color h0
  rcases hdisj with ⟨hcw', hwin, _, _⟩ | ⟨hcw', _, hwin, _, _⟩ |
    ⟨hcw', _, hwin, _, _⟩
  · rw [← hboard] at hcw'
    exact iff_of_true hwin (hcw.symm.trans hcw')
  · rw [← hboard] at hcw'
    refine iff_of_false ?_ ?_
    · rw [hwin]
      rcases hcol with h | h <;> rw [h] <;> omega
    · simp [hcw.symm.trans hcw']
  · rw [← hboard] at hcw'
    refine iff_of_false ?_ ?_
    · rw [hwin]
      rcases hcol with h | h <;> rw [h] <;> omega
    · simp [hcw.symm.trans hcw']

theorem place_stone_win_iff_witness :
    ((c4State.place_stone 7 7 1).1.winner = 1 ↔
      winningLineThrough (c4State.place_stone 7 7 1).2.board 7 7 1 = true) :=
  place_stone_win_iff c4State 7 7 1 (c4State.place_stone 7 7 1).1
    (c4State.place_stone 7 7 1).2 rfl (by decide) (Or.inl rfl)
    (show c4State.board.length = 15 ∧ ∀ row ∈ c4State.board, row.length = 15
      from ⟨by decide, by decide⟩)

/-- `tickTotal` never changes the two limit settings or the turn clock,
and can only fire a `total` timeout. -/
theorem tickTotal_fields (m : ConnectionManager) (color : Int) :
    (m.tickTotal color).1.turn_time_limit = m.turn_time_limit ∧
    (m.tickTotal color).1.total_time_setting = m.total_time_setting ∧
    (m.tickTotal color).1.turn_remaining = m.turn_remaining ∧
    (∀ c r, (m.tickTotal color).2 = some (c, r) → r = TReason.total) := by
  unfold ConnectionManager.tickTotal
  by_cases h1 : 0 < m.total_time_setting
  · rw [if_pos h1]
    unfold ConnectionManager.setTotalTime ConnectionManager.totalTime
    by_cases hc : color = 1 <;>
      simp only [if_pos, if_neg, hc] <;>
      split_ifs <;>
      refine ⟨rfl, rfl, rfl, fun c r he => ?_⟩ <;>
      simp only [Option.some.injEq, Prod.mk.injEq] at he <;>
      first
      | exact he.2.symm
      | exact absurd he (by simp)
  · rw [if_neg h1]
    exact ⟨rfl, rfl, rfl, fun c r he => by simp at he⟩

/-- With no turn limit the tick body skips the turn-clock branch. -/
theorem tick_unlimited (m : ConnectionManager) (h : m.turn_time_limit ≤ 0) :
    m.tick = m.tickTotal m.game.current_turn := by
  unfold ConnectionManager.tick
  rw [if_neg (not_lt.mpr h)]

/-- With no turn limit and no total budget the tick body does nothing. -/
theorem tickTotal_disabled (m : ConnectionManager) (color : Int)
    (h : m.total_time_setting ≤ 0) : m.tickTotal color = (m, none) := by
  unfold ConnectionManager.tickTotal
  rw [if_neg (not_lt.mpr h)]

/-- C3 (amended): when `turn_time_limit` is 0 every `timer_sync` still
reports `turn_remaining = -1` and no `turn` timeout ever fires, but the
loop keeps running: a `total` timeout can still fire, and only when
`total_time_setting` is also 0 does the loop change nothing and fire
nothing. -/
theorem unlimited_turn_clock (m : ConnectionManager) (n : Nat)
    (h : m.turn_time_limit ≤ 0) :
    (m.runTicks n).1.timerSyncTurnRemaining = -1 ∧
    (∀ c r, (m.runTicks n).2 = some (c, r) → r = TReason.total) ∧
    (m.total_time_setting ≤ 0 → m.runTicks n = (m, none)) := by
  induction n generalizing m with
  | zero =>
    refine ⟨?_, fun c r he => by simp [ConnectionManager.runTicks] at he,
      fun _ => rfl⟩
    unfold ConnectionManager.runTicks ConnectionManager.timerSyncTurnRemaining
    rw [if_neg (not_lt.mpr h)]
  | succ n ih =>
    have htt := tickTotal_fields m m.game.current_turn
    have hstep : m.runTicks (n + 1) =
        (match m.tick with
         | (m', none) => m'.runTicks n
         | (m', some e) => (m', some e)) := rfl
    have hrun : m.runTicks (n + 1) =
        (match m.tickTotal m.game.current_turn with
         | (m', none) => m'.runTicks n
         | (m', some e) => (m', some e)) := by
      rw [hstep, tick_unlimited m h]
    rcases htick : m.tickTotal m.game.current_turn with ⟨m', e⟩
    have hm' : m'.turn_time_limit = m.turn_time_limit ∧
        m'.total_time_setting = m.total_time_setting := by
      rw [htick] at htt
      exact ⟨htt.1, htt.2.1⟩
    cases e with
    | none =>
      rw [htick] at hrun
      simp only at hrun
      have := ih m' (hm'.1 ▸ h)
      refine ⟨by rw [hrun]; exact this.1, fun c r he => ?_, fun hz => ?_⟩
      · rw [hrun] at he
        exact this.2.1 c r he
      · have hz' := tickTotal_disabled m m.game.current_turn hz
        rw [hz'] at htick
        injection htick with he1 _
        rw [hrun]
        exact he1 ▸ this.2.2 (he1 ▸ hz)
    | some ev =>
      rw [htick] at hrun
      simp only at hrun
      refine ⟨?_, fun c r he => ?_, fun hz => ?_⟩
      · rw [hrun]
        unfold ConnectionManager.timerSyncTurnRemaining
        rw [if_neg (not_lt.mpr (hm'.1 ▸ h))]
      · rw [hrun] at he
        simp only [Option.some.injEq] at he
        rw [htick] at htt
        exact htt.2.2.2 c r (by rw [he])
      · have hz' := tickTotal_disabled m m.game.current_turn hz
        rw [hz'] at htick
        injection htick with _ he2
        exact absurd he2.symm (by simp)

theorem unlimited_turn_clock_witness :
    c3cmZero.runTicks 5 = (c3cmZero, none) :=
  (unlimited_turn_clock c3cmZero 5 (by decide)).2.2 (by decide)

/-- C3 counterexample: with `turn_time_limit = 0` and the default
300-second total budget, the timer loop still counts total time down and
fires a total timeout on the 300th tick, so "no timeout ever fires" is
false. -/
theorem unlimited_turn_total_timeout_cex :
    c3cm.turn_time_limit = 0 ∧ c3cm.timerSyncTurnRemaining = -1 ∧
    (c3cm.runTicks 300).2 = some (1, TReason.total) := by
  decide

theorem pause_request_atomic_witness :
    cmPause.handle_pause 5 =
      ({ cmPause.setPauseCount 1 (cmPause.pauseCount 1 - 1) with
           paused := true
           pause_by := 1
           pause_remaining := cmPause.pause_duration }, PauseOut.applied) :=
  ((pause_request_atomic cmPause 5 1).2.2.2.1 (by decide) rfl rfl rfl
    (by decide))

theorem connect_admission_witness :
    cmFresh.connect 7 = (Role.black,
      { cmFresh with players1 := some 7
                     game := { cmFresh.game with game_started :=
                       cmFresh.players2.isSome || cmFresh.game.game_started } },
      false) :=
  (connect_admission cmFresh 7).2.1 (by decide) (by decide)

set_option maxRecDepth 100000 in
/-- C1: the 225 alternating `drawMoves` all succeed (the final history
has all 225 entries) and the last call reports a draw ("平局！",
winner -1), but the stored winner field remains 0 — the draw is never
recorded, so the "terminal" draw state is not absorbing: `resign 1`
still succeeds afterwards and makes white the winner. -/
theorem draw_reported_but_not_recorded :
    (playAllRes GomokuGame.reset drawMoves
      = ({ success := true, winner := -1, message := "平局！" }, drawState)) ∧
    drawState.winner = 0 ∧
    drawState.move_history.length = 225 ∧
    drawState.resign 1 = (true, { drawState with winner := 2 }) := by
  refine ⟨by decide, by decide, by decide, by decide⟩
